import Mathlib

/-
Verification development for the dungeon-crawler visibility core
(shadow casting field of view).

The embedding translates the Python source files:
  components.py : Luminosity, Viewable, Position, Player
  vision.py     : VisionSystem, Viewables, scan, iter_octant,
                  slope, inverse_slope, screen_bounds
  engine.py     : an older slope without the degenerate-case guard

Modelling conventions:
  - Python Viewable objects are identified by a natural-number id (vid);
    the mutable luminosity attribute is a map from vid to Luminosity,
    while the immutable attributes (opacity flag, terrain flag) live in
    the Viewable record.  The source field named after opacity is called
    solid here because its original name is a Lean keyword.
  - Python floats produced by slope and inverse_slope are modelled by
    rationals extended with a positive infinity (Flt); for the integer
    grid inputs in scope, float division is exact enough that every
    comparison against the bounds 0 and 0.5 agrees with the rational one.
  - The unbounded generator iter_octant is modelled by the list of its
    first n rings; the unbounded scan loop and its recursion receive
    explicit fuel (a ring count and a recursion depth).  Every claim is
    stated for arbitrary fuel or at fuel large enough to contain the
    breaks the source performs.
  - Python exceptions (the TypeError raised on a missing viewer, the
    ZeroDivisionError of the unguarded engine slope) are modelled with
    Except / an explicit error value.
-/

namespace DungeonCrawler

/-- Luminosity enum from components.py. -/
inductive Luminosity where
  | BRIGHT
  | DIM
  | HIDDEN
deriving DecidableEq, Repr

/-- Viewable dataclass from components.py: vid models Python object
identity, solid embeds the boolean field that marks the viewable as
blocking sight (named after opacity in the source), terrain is the
terrain flag.  The mutable luminosity attribute is modelled separately
as a map from vid to Luminosity. -/
structure Viewable where
  vid : Nat
  solid : Bool
  terrain : Bool
deriving DecidableEq, Repr

/-- An entity possessing both a Position and a Viewable (the only
entities the vision system can observe), with a flag for the Player
component.  Entities lacking Position or Viewable never enter any
iter_traits query used by vision.py, so they are omitted. -/
structure Ent where
  x : Int
  y : Int
  v : Viewable
  isPlayer : Bool
deriving DecidableEq, Repr

/-- The sparse map interface of the Viewables class in vision.py: a
coordinate maps to the list of viewables stored there, defaulting to
the empty list for absent keys. -/
def Viewables := Int × Int → List Viewable

/-- Python float values produced by slope and inverse_slope: either the
exact rational ratio or positive infinity. -/
inductive Flt where
  | inf
  | val (q : Rat)
deriving DecidableEq, Repr

/-- Comparison m < q of a slope value against a finite rational, as
Python evaluates it: infinity is less than nothing. -/
def Flt.ltq : Flt → Rat → Bool
  | .inf, _ => false
  | .val m, q => decide (m < q)

/-- Comparison m > q of a slope value against a finite rational, as
Python evaluates it: infinity exceeds every finite bound. -/
def Flt.gtq : Flt → Rat → Bool
  | .inf, _ => false
  | .val m, q => decide (q < m)

/-- inverse_slope from vision.py: (x2 - x1) / (y2 - y1), returning
infinity when y1 = y2.  The rational Rat.divInt (b.1 - a.1) (b.2 - a.2)
is exactly the true division the source performs on its integer inputs. -/
def inverse_slope (a b : Int × Int) : Flt :=
  if a.2 = b.2 then .inf
  else .val (Rat.divInt (b.1 - a.1) (b.2 - a.2))

/-- slope from vision.py: (y2 - y1) / (x2 - x1), returning infinity
when x1 = x2. -/
def slope (a b : Int × Int) : Flt :=
  if a.1 = b.1 then .inf
  else .val (Rat.divInt (b.2 - a.2) (b.1 - a.1))

/-- slope from engine.py, which divides without guarding the x1 = x2
case; the error value models the ZeroDivisionError Python raises there. -/
def engineSlope (a b : Int × Int) : Except Unit Rat :=
  if b.1 - a.1 = 0 then .error ()
  else .ok (Rat.divInt (b.2 - a.2) (b.1 - a.1))

/-- The rational value of the Python literal 0.5 used in the recursive
slope range of scan. -/
def half : Rat := Rat.divInt 1 2

/-- One ring of the iter_octant generator in vision.py: the offsets the
while-loop body yields for a given octant index and ring radius k.  Each
branch mirrors one comprehension (for i in reversed(range(k + 1))); an
index outside 1..8 yields nothing (the loop breaks). -/
def octantRing (index : Int) (k : Nat) : List (Int × Int) :=
  if index = 1 then ((List.range (k + 1)).reverse).map (fun (i : Nat) => (-(i : Int), (k : Int)))
  else if index = 2 then ((List.range (k + 1)).reverse).map (fun (i : Nat) => ((i : Int), (k : Int)))
  else if index = 3 then ((List.range (k + 1)).reverse).map (fun (i : Nat) => ((k : Int), (i : Int)))
  else if index = 4 then ((List.range (k + 1)).reverse).map (fun (i : Nat) => ((k : Int), -(i : Int)))
  else if index = 5 then ((List.range (k + 1)).reverse).map (fun (i : Nat) => ((i : Int), -(k : Int)))
  else if index = 6 then ((List.range (k + 1)).reverse).map (fun (i : Nat) => (-(i : Int), -(k : Int)))
  else if index = 7 then ((List.range (k + 1)).reverse).map (fun (i : Nat) => (-(k : Int), -(i : Int)))
  else if index = 8 then ((List.range (k + 1)).reverse).map (fun (i : Nat) => (-(k : Int), (i : Int)))
  else []

/-- The first n rings of the unbounded iter_octant generator, in yield
order: ring 1, then ring 2, and so on. -/
def iterOctant (index : Int) (n : Nat) : List (Int × Int) :=
  (List.range n).flatMap (fun k => octantRing index (k + 1))

/-- The slope-range filter of scan (vision.py lines 106-113): a point is
skipped when a slope range is set and the bounding metric (inverse slope
for octants 1,2,5,6, slope for 3,4,7,8) falls outside it.  The source
leaves the metric undefined for other octant values, but for those the
generator yields no points, so the else-branch is never reached along
any run of the source. -/
def skipPoint (octant : Int) (o pt : Int × Int) (sr : Option (Rat × Rat)) : Bool :=
  match sr with
  | none => false
  | some (lo, hi) =>
    let m := if octant = 1 ∨ octant = 2 ∨ octant = 5 ∨ octant = 6 then
        inverse_slope o pt
      else
        slope o pt
    m.ltq lo || m.gtq hi

/-- The ring-termination test of scan (vision.py lines 126-131): with
offset (i, j) just processed and wall-seen flag ws, the loop breaks for
octants 1,2,5,6 when i = 0 and a wall has been seen, and for octants
3,4,7,8 when j = 0 and a wall has been seen. -/
def breakAfter (octant : Int) (i j : Int) (ws : Bool) : Bool :=
  if octant = 1 ∨ octant = 2 ∨ octant = 5 ∨ octant = 6 then decide (i = 0) && ws
  else if octant = 3 ∨ octant = 4 ∨ octant = 7 ∨ octant = 8 then decide (j = 0) && ws
  else false

/-- Whether the cell holds a wall: any viewable there blocks sight
(vision.py line 120). -/
def wallAt (vs : Viewables) (pt : Int × Int) : Bool :=
  (vs pt).any (fun v => v.solid)

/-- The loop body of scan (vision.py lines 99-132) over an explicit
list of generator offsets, threading the mutable locals slope_range and
wall_seen as arguments.  The recursive call of line 123 is abstracted
as subScan (the caller instantiates it with scan itself at one lower
recursion depth); it receives the shifted coordinates x + i - 1, y + j
exactly as in the source.  A bounds failure breaks the whole loop; a
skipped point contributes nothing; otherwise the viewables at the point
are appended, a wall with octant 1 sets the slope range to (0, 0.5) and
triggers the sub-scan, and the ring-termination rule may break the
loop. -/
def scanAux (vs : Viewables) (bc : Int → Int → Bool) (octant : Int) (x y : Int)
    (subScan : Int → Int → List Viewable) :
    List (Int × Int) → Option (Rat × Rat) → Bool → List Viewable
  | [], _, _ => []
  | (i, j) :: rest, sr, ws =>
    if bc (x + i) (y + j) then []
    else if skipPoint octant (x, y) (x + i, y + j) sr then
      scanAux vs bc octant x y subScan rest sr ws
    else
      let here := vs (x + i, y + j)
      let wall := here.any (fun v => v.solid)
      let sub := if wall && decide (octant = 1) then subScan (x + i - 1) (y + j) else []
      let sr' := if wall && decide (octant = 1) then some ((0 : Rat), half) else sr
      let ws' := ws || wall
      here ++ sub ++
        (if breakAfter octant i j ws' then []
         else scanAux vs bc octant x y subScan rest sr' ws')

/-- The argument tuples (octant, x, y, slope range) of the direct
recursive calls scan makes at vision.py line 123, in the order the loop
issues them.  The control flow (bounds break, slope skip, wall test,
ring termination) is exactly that of scanAux; only the recorded data
differs. -/
def scanCallsAux (vs : Viewables) (bc : Int → Int → Bool) (octant : Int) (x y : Int) :
    List (Int × Int) → Option (Rat × Rat) → Bool → List (Int × Int × Int × (Rat × Rat))
  | [], _, _ => []
  | (i, j) :: rest, sr, ws =>
    if bc (x + i) (y + j) then []
    else if skipPoint octant (x, y) (x + i, y + j) sr then
      scanCallsAux vs bc octant x y rest sr ws
    else
      let wall := (vs (x + i, y + j)).any (fun v => v.solid)
      let calls0 := if wall && decide (octant = 1) then
          [(octant, x + i - 1, y + j, ((0 : Rat), half))] else []
      let sr' := if wall && decide (octant = 1) then some ((0 : Rat), half) else sr
      let ws' := ws || wall
      calls0 ++
        (if breakAfter octant i j ws' then []
         else scanCallsAux vs bc octant x y rest sr' ws')

/-- scan from vision.py, with explicit fuel: nr bounds how many rings
of the generator are traversed and the first Nat argument bounds the
recursion depth of the line-123 re-scan (the source bounds neither; on
every input where the source terminates, large enough fuel yields the
same result).  The recursive call keeps the octant, the viewables and
the bounds check, moves the origin argument to x + i - 1, y + j, and
passes slope range (0, 0.5). -/
def scan (vs : Viewables) (bc : Int → Int → Bool) (nr : Nat) :
    Nat → Int → Int → Int → Option (Rat × Rat) → List Viewable
  | 0, _, _, _, _ => []
  | depth + 1, octant, x, y, sr =>
    scanAux vs bc octant x y
      (fun x1 y1 => scan vs bc nr depth octant x1 y1 (some ((0 : Rat), half)))
      (iterOctant octant nr) sr false

/-- screen_bounds from vision.py, with the ambient terminal dimensions
curses.COLS and curses.LINES passed explicitly: true when (x, y) lies
outside the screen. -/
def screenBounds (cols lines : Int) (x y : Int) : Bool :=
  decide (x < 0) || decide (y < 0) || decide (cols ≤ x) || decide (lines ≤ y)

/-- Viewables.from_game (vision.py lines 81-90): the dict maps each
coordinate to the viewables of the entities positioned there, appended
in entity-iteration order; lookup of an absent coordinate gives the
empty list. -/
def viewablesFromGame (g : List Ent) : Viewables := fun pt =>
  (g.filter (fun e => decide ((e.x, e.y) = pt))).map (fun e => e.v)

/-- VisionSystem.get_player_position (vision.py lines 18-24): the
position of the first entity carrying Position, Player and Viewable;
none models the (None, None) sentinel returned when there is no such
entity. -/
def getPlayerPosition (g : List Ent) : Option (Int × Int) :=
  (g.find? (fun e => e.isPlayer)).map (fun e => (e.x, e.y))

/-- The luminosity state: Python stores luminosity on each Viewable
object; here it is a map from object id (vid) to Luminosity. -/
def LumState := Nat → Luminosity

/-- VisionSystem.dim_seen_viewables (vision.py lines 26-29): walk the
stored seen list in order; each viewable whose current luminosity is
BRIGHT is set to DIM when it is terrain and to HIDDEN otherwise. -/
def dimSeen : List Viewable → LumState → LumState
  | [], s => s
  | v :: rest, s =>
    dimSeen rest
      (if s v.vid = Luminosity.BRIGHT then
        fun n => if n = v.vid then (if v.terrain then .DIM else .HIDDEN) else s n
      else s)

/-- The relight loop of run_shadow_casting (vision.py lines 40-41):
every viewable of the new seen list is set to BRIGHT. -/
def relight : List Viewable → LumState → LumState
  | [], s => s
  | v :: rest, s => relight rest (fun n => if n = v.vid then Luminosity.BRIGHT else s n)

/-- VisionSystem.run_algorithm (vision.py lines 43-56): rebuild the
sparse index from the game and concatenate the scans of the eight
octants, each rooted at the viewer position, with no initial slope
range and the default screen bounds check. -/
def runAlgorithm (cols lines : Int) (fuel nr : Nat) (g : List Ent) (x y : Int) :
    List Viewable :=
  let vs := viewablesFromGame g
  let bc := screenBounds cols lines
  scan vs bc nr fuel 1 x y none ++ scan vs bc nr fuel 2 x y none ++
    scan vs bc nr fuel 3 x y none ++ scan vs bc nr fuel 4 x y none ++
    scan vs bc nr fuel 5 x y none ++ scan vs bc nr fuel 6 x y none ++
    scan vs bc nr fuel 7 x y none ++ scan vs bc nr fuel 8 x y none

/-- The visibility-system state: the seen list stored on the
VisionSystem dataclass together with the luminosity of every viewable. -/
structure VisionState where
  seen : List Viewable
  lum : LumState

/-- VisionSystem.run_shadow_casting (vision.py lines 31-41): locate the
player, dim the previously seen viewables, run the eight-octant scan
and relight the new seen list.  When no player entity exists the source
sets x, y = None, None and the first offset addition x + i inside scan
raises a TypeError, so the pass never completes; the error value
models that exception. -/
def runShadowCastingE (cols lines : Int) (fuel nr : Nat) (g : List Ent)
    (st : VisionState) : Except Unit VisionState :=
  match getPlayerPosition g with
  | some (x, y) =>
    let s1 := dimSeen st.seen st.lum
    let seen1 := runAlgorithm cols lines fuel nr g x y
    .ok ⟨seen1, relight seen1 s1⟩
  | none => .error ()

/-- A sequence of visibility passes: one run_shadow_casting call per
game state in the list (entities may move, appear or disappear between
passes), aborting like the source if a pass raises. -/
def runPassesE (cols lines : Int) (fuel nr : Nat) :
    List (List Ent) → VisionState → Except Unit VisionState
  | [], st => .ok st
  | g :: gs, st =>
    match runShadowCastingE cols lines fuel nr g st with
    | .ok st1 => runPassesE cols lines fuel nr gs st1
    | .error e => .error e

/-- The initial state: an empty seen list (the dataclass default) and
every viewable HIDDEN (the Viewable default luminosity). -/
def initState : VisionState := ⟨[], fun _ => Luminosity.HIDDEN⟩

/-- The hand-built sparse map of test_scan (vision.py lines 138-147).
Each Python Viewable() literal is a fresh object, modelled with a fresh
vid; the cell (-1, 1) holds the single wall.  The test passes a raw
dict, whose lookups on absent keys would raise KeyError; the run under
scrutiny never looks up an absent key, so the total function with empty
default is observationally equal on it. -/
def testScanMap : Viewables := fun pt =>
  if pt = (-2, 3) then [⟨1, false, false⟩]
  else if pt = (-1, 3) then [⟨2, false, false⟩]
  else if pt = (0, 3) then [⟨3, false, false⟩]
  else if pt = (-1, 2) then [⟨4, false, false⟩]
  else if pt = (-1, 1) then [⟨5, true, false⟩]
  else []

/-- The bounds check of test_scan (vision.py line 148): fails exactly
when y > 3. -/
def testScanBounds (_x y : Int) : Bool := decide (3 < y)

/-- The vids of a seen list. -/
def vids (l : List Viewable) : List Nat := l.map (fun v => v.vid)

theorem relight_not_mem (l : List Viewable) (s : LumState) (n : Nat)
    (h : n ∉ vids l) : relight l s n = s n := by
  induction l generalizing s with
  | nil => rfl
  | cons v rest ih =>
    have hne : n ≠ v.vid := by
      intro he
      exact h (by simp [vids, he])
    have hrest : n ∉ vids rest := by
      intro hm
      exact h (by simp [vids] at hm ⊢; exact Or.inr hm)
    simp only [relight]
    rw [ih _ hrest]
    simp [hne]

theorem relight_mem (l : List Viewable) (s : LumState) (n : Nat)
    (h : n ∈ vids l) : relight l s n = Luminosity.BRIGHT := by
  induction l generalizing s with
  | nil => simp [vids] at h
  | cons v rest ih =>
    by_cases hr : n ∈ vids rest
    · simpa only [relight] using ih _ hr
    · have hv : n = v.vid := by
        simp [vids] at h
        rcases h with h | h
        · exact h
        · exact absurd (by simpa [vids] using h) hr
      simp only [relight]
      rw [relight_not_mem _ _ _ hr]
      simp [hv]

theorem relight_cases (l : List Viewable) (s : LumState) (n : Nat) :
    relight l s n = Luminosity.BRIGHT ∨ relight l s n = s n := by
  by_cases h : n ∈ vids l
  · exact Or.inl (relight_mem l s n h)
  · exact Or.inr (relight_not_mem l s n h)

theorem dimSeen_not_mem (l : List Viewable) (s : LumState) (n : Nat)
    (h : n ∉ vids l) : dimSeen l s n = s n := by
  induction l generalizing s with
  | nil => rfl
  | cons v rest ih =>
    have hne : n ≠ v.vid := by
      intro he
      exact h (by simp [vids, he])
    have hrest : n ∉ vids rest := by
      intro hm
      exact h (by simp [vids] at hm ⊢; exact Or.inr hm)
    simp only [dimSeen]
    rw [ih _ hrest]
    split
    · simp [hne]
    · rfl

theorem dimSeen_stable (l : List Viewable) (s : LumState) (n : Nat)
    (h : s n ≠ Luminosity.BRIGHT) : dimSeen l s n = s n := by
  induction l generalizing s with
  | nil => rfl
  | cons v rest ih =>
    simp only [dimSeen]
    split
    · rename_i hb
      by_cases hv : n = v.vid
      · exact absurd (hv ▸ hb) h
      · have := ih (fun m => if m = v.vid then (if v.terrain then .DIM else .HIDDEN) else s m)
          (by simp [hv]; exact h)
        simpa [hv] using this
    · exact ih s h

theorem dimSeen_bright_mono (l : List Viewable) (s : LumState) (n : Nat)
    (h : dimSeen l s n = Luminosity.BRIGHT) : s n = Luminosity.BRIGHT := by
  induction l generalizing s with
  | nil => exact h
  | cons v rest ih =>
    simp only [dimSeen] at h
    rcases hs : s v.vid with _ | _ | _ <;> rw [hs] at h
    · have h2 := ih _ h
      by_cases hv : n = v.vid
      · subst hv
        simp at h2
        split at h2
        · exact absurd h2 (by simp)
        · exact absurd h2 (by simp)
      · simpa [hv] using h2
    · simpa using ih _ h
    · simpa using ih _ h

theorem dimSeen_kills_mem (l : List Viewable) (s : LumState) (n : Nat)
    (h : n ∈ vids l) : dimSeen l s n ≠ Luminosity.BRIGHT := by
  induction l generalizing s with
  | nil => simp [vids] at h
  | cons v rest ih =>
    by_cases hr : n ∈ vids rest
    · simp only [dimSeen]
      split
      · exact ih _ hr
      · exact ih _ hr
    · have hv : n = v.vid := by
        simp [vids] at h
        rcases h with h | h
        · exact h
        · exact absurd (by simpa [vids] using h) hr
      subst hv
      simp only [dimSeen]
      split
      · rename_i hb
        rw [dimSeen_stable _ _ _ (by simp; split <;> simp)]
        simp
        split <;> simp
      · rename_i hb
        rw [dimSeen_stable _ _ _ hb]
        exact hb

theorem dimSeen_target (l : List Viewable) (s : LumState) (v : Viewable)
    (huniq : ∀ a ∈ l, ∀ b ∈ l, a.vid = b.vid → a = b)
    (hv : v ∈ l) (hb : s v.vid = Luminosity.BRIGHT) :
    dimSeen l s v.vid = (if v.terrain then Luminosity.DIM else Luminosity.HIDDEN) := by
  induction l generalizing s with
  | nil => simp at hv
  | cons w rest ih =>
    by_cases hw : w.vid = v.vid
    · have hwv : w = v := huniq w (by simp) v hv hw
      subst hwv
      simp only [dimSeen, hb, if_pos]
      rw [dimSeen_stable _ _ _ (by simp; split <;> simp)]
      simp
    · have hvr : v ∈ rest := by
        rcases List.mem_cons.1 hv with h | h
        · exact absurd (by rw [h]) hw
        · exact h
      have huniq2 : ∀ a ∈ rest, ∀ b ∈ rest, a.vid = b.vid → a = b :=
        fun a ha b hb2 => huniq a (List.mem_cons_of_mem _ ha) b (List.mem_cons_of_mem _ hb2)
      simp only [dimSeen]
      split
      · rename_i hbw
        refine ih _ huniq2 hvr ?_
        have hne : ¬ v.vid = w.vid := fun h => hw h.symm
        simp [hne]
        exact hb
      · exact ih _ huniq2 hvr hb

theorem dimSeen_no_dim (l : List Viewable) (s : LumState) (n : Nat)
    (ht : ∀ w ∈ l, w.vid = n → w.terrain = false)
    (hd : s n ≠ Luminosity.DIM) : dimSeen l s n ≠ Luminosity.DIM := by
  induction l generalizing s with
  | nil => exact hd
  | cons w rest ih =>
    simp only [dimSeen]
    refine ih _ (fun a ha => ht a (List.mem_cons_of_mem _ ha)) ?_
    split
    · by_cases hv : n = w.vid
      · have : w.terrain = false := ht w (by simp) hv.symm
        simp [hv, this]
      · simpa [hv] using hd
    · exact hd

theorem range_reverse_map {α : Type} (f : Nat → α) (n : Nat) :
    ((List.range (n + 1)).reverse).map f
      = (List.range (n + 1)).map (fun t => f (n - t)) := by
  conv_lhs => rw [List.range_eq_range', List.reverse_range']
  rw [List.map_map]
  refine List.map_congr_left ?_
  intro a _
  have h : 0 + (n + 1) - 1 - a = n - a := by omega
  simp [Function.comp, h]

theorem ring_closed_of {k : Nat} {f g : Nat → Int × Int}
    (h : ∀ t, t ≤ k → f (k - t) = g t) :
    ((List.range (k + 1)).reverse).map f = (List.range (k + 1)).map g := by
  rw [range_reverse_map]
  refine List.map_congr_left ?_
  intro t ht
  exact h t (Nat.lt_succ_iff.1 (List.mem_range.1 ht))

theorem octantRing_closed (k : Nat) :
    octantRing 1 k = (List.range (k + 1)).map (fun (t : Nat) => ((t : Int) - k, (k : Int))) ∧
    octantRing 2 k = (List.range (k + 1)).map (fun (t : Nat) => ((k : Int) - t, (k : Int))) ∧
    octantRing 3 k = (List.range (k + 1)).map (fun (t : Nat) => ((k : Int), (k : Int) - t)) ∧
    octantRing 4 k = (List.range (k + 1)).map (fun (t : Nat) => ((k : Int), (t : Int) - k)) ∧
    octantRing 5 k = (List.range (k + 1)).map (fun (t : Nat) => ((k : Int) - t, -(k : Int))) ∧
    octantRing 6 k = (List.range (k + 1)).map (fun (t : Nat) => ((t : Int) - k, -(k : Int))) ∧
    octantRing 7 k = (List.range (k + 1)).map (fun (t : Nat) => (-(k : Int), (t : Int) - k)) ∧
    octantRing 8 k = (List.range (k + 1)).map (fun (t : Nat) => (-(k : Int), (k : Int) - t)) := by
  have e1 : octantRing 1 k = ((List.range (k + 1)).reverse).map (fun (i : Nat) => (-(i : Int), (k : Int))) := by unfold octantRing; rfl
  have e2 : octantRing 2 k = ((List.range (k + 1)).reverse).map (fun (i : Nat) => ((i : Int), (k : Int))) := by unfold octantRing; rfl
  have e3 : octantRing 3 k = ((List.range (k + 1)).reverse).map (fun (i : Nat) => ((k : Int), (i : Int))) := by unfold octantRing; rfl
  have e4 : octantRing 4 k = ((List.range (k + 1)).reverse).map (fun (i : Nat) => ((k : Int), -(i : Int))) := by unfold octantRing; rfl
  have e5 : octantRing 5 k = ((List.range (k + 1)).reverse).map (fun (i : Nat) => ((i : Int), -(k : Int))) := by unfold octantRing; rfl
  have e6 : octantRing 6 k = ((List.range (k + 1)).reverse).map (fun (i : Nat) => (-(i : Int), -(k : Int))) := by unfold octantRing; rfl
  have e7 : octantRing 7 k = ((List.range (k + 1)).reverse).map (fun (i : Nat) => (-(k : Int), -(i : Int))) := by unfold octantRing; rfl
  have e8 : octantRing 8 k = ((List.range (k + 1)).reverse).map (fun (i : Nat) => (-(k : Int), (i : Int))) := by unfold octantRing; rfl
  refine ⟨?_, ?_, ?_, ?_, ?_, ?_, ?_, ?_⟩
  · rw [e1]
    refine ring_closed_of ?_
    intro t ht
    simp only [Prod.mk.injEq, and_true, true_and]
    omega
  · rw [e2]
    refine ring_closed_of ?_
    intro t ht
    simp only [Prod.mk.injEq, and_true, true_and]
    omega
  · rw [e3]
    refine ring_closed_of ?_
    intro t ht
    simp only [Prod.mk.injEq, and_true, true_and]
    omega
  · rw [e4]
    refine ring_closed_of ?_
    intro t ht
    simp only [Prod.mk.injEq, and_true, true_and]
    omega
  · rw [e5]
    refine ring_closed_of ?_
    intro t ht
    simp only [Prod.mk.injEq, and_true, true_and]
    omega
  · rw [e6]
    refine ring_closed_of ?_
    intro t ht
    simp only [Prod.mk.injEq, and_true, true_and]
    omega
  · rw [e7]
    refine ring_closed_of ?_
    intro t ht
    simp only [Prod.mk.injEq, and_true, true_and]
    omega
  · rw [e8]
    refine ring_closed_of ?_
    intro t ht
    simp only [Prod.mk.injEq, and_true, true_and]
    omega

theorem octantRing_length (idx : Int) (k : Nat) (h1 : 1 ≤ idx) (h8 : idx ≤ 8) :
    (octantRing idx k).length = k + 1 := by
  have hc := octantRing_closed k
  have h : idx = 1 ∨ idx = 2 ∨ idx = 3 ∨ idx = 4 ∨ idx = 5 ∨ idx = 6 ∨ idx = 7 ∨ idx = 8 := by
    omega
  rcases h with h | h | h | h | h | h | h | h <;> subst h
  · rw [hc.1]; simp
  · rw [hc.2.1]; simp
  · rw [hc.2.2.1]; simp
  · rw [hc.2.2.2.1]; simp
  · rw [hc.2.2.2.2.1]; simp
  · rw [hc.2.2.2.2.2.1]; simp
  · rw [hc.2.2.2.2.2.2.1]; simp
  · rw [hc.2.2.2.2.2.2.2]; simp

theorem octantRing_ne_zero (idx : Int) (k : Nat) (p : Int × Int)
    (hp : p ∈ octantRing idx (k + 1)) : p ≠ (0, 0) := by
  simp only [octantRing] at hp
  split_ifs at hp <;>
    first
    | (rcases List.mem_map.1 hp with ⟨i, _, rfl⟩
       simp only [ne_eq, Prod.mk.injEq, not_and]
       omega)
    | simp at hp

theorem iterOctant_ne_zero (idx : Int) (n : Nat) (p : Int × Int)
    (hp : p ∈ iterOctant idx n) : p ≠ (0, 0) := by
  rcases List.mem_flatMap.1 hp with ⟨k, _, hk⟩
  exact octantRing_ne_zero idx k p hk

theorem octantRing_one_snd (k : Nat) (p : Int × Int)
    (hp : p ∈ octantRing 1 k) : p.2 = (k : Int) := by
  simp only [octantRing, if_pos rfl] at hp
  rcases List.mem_map.1 hp with ⟨i, _, rfl⟩
  rfl

theorem iterOctant_one_snd_pos (n : Nat) (p : Int × Int)
    (hp : p ∈ iterOctant 1 n) : 1 ≤ p.2 := by
  rcases List.mem_flatMap.1 hp with ⟨k, _, hk⟩
  have := octantRing_one_snd (k + 1) p hk
  omega

theorem iterOctant_block (idx : Int) (k : Nat) :
    iterOctant idx (k + 1) = iterOctant idx k ++ octantRing idx (k + 1) := by
  simp only [iterOctant, List.range_succ, List.flatMap_append]
  simp

theorem scanAux_mem {vs : Viewables} {bc : Int → Int → Bool} {octant : Int} {x y : Int}
    {sub : Int → Int → List Viewable} {v : Viewable} :
    ∀ {offs : List (Int × Int)} {sr : Option (Rat × Rat)} {ws : Bool},
    v ∈ scanAux vs bc octant x y sub offs sr ws →
    (∃ p ∈ offs, v ∈ vs (x + p.1, y + p.2)) ∨
      (octant = 1 ∧ ∃ p ∈ offs, v ∈ sub (x + p.1 - 1) (y + p.2)) := by
  intro offs
  induction offs with
  | nil => intro sr ws h; simp [scanAux] at h
  | cons p rest ih =>
    obtain ⟨i, j⟩ := p
    intro sr ws h
    simp only [scanAux] at h
    by_cases hbc : bc (x + i) (y + j) = true
    · simp [hbc] at h
    · rw [if_neg (by simp [hbc])] at h
      by_cases hsk : skipPoint octant (x, y) (x + i, y + j) sr = true
      · rw [if_pos (by simp [hsk])] at h
        rcases ih h with ⟨q, hq, hv⟩ | ⟨ho, q, hq, hv⟩
        · exact Or.inl ⟨q, List.mem_cons_of_mem _ hq, hv⟩
        · exact Or.inr ⟨ho, q, List.mem_cons_of_mem _ hq, hv⟩
      · rw [if_neg (by simp [hsk])] at h
        simp only [List.mem_append] at h
        rcases h with (h | h) | h
        · exact Or.inl ⟨(i, j), List.mem_cons_self _ _, h⟩
        · by_cases hw : ((vs (x + i, y + j)).any (fun w => w.solid) && decide (octant = 1)) = true
          · rw [if_pos hw] at h
            have ho : octant = 1 := of_decide_eq_true (Bool.and_elim_right hw)
            exact Or.inr ⟨ho, (i, j), List.mem_cons_self _ _, h⟩
          · rw [if_neg hw] at h
            simp at h
        · by_cases hbr : breakAfter octant i j
              (ws || (vs (x + i, y + j)).any (fun w => w.solid)) = true
          · rw [if_pos (by simp [hbr])] at h
            simp at h
          · rw [if_neg (by simp [hbr])] at h
            rcases ih h with ⟨q, hq, hv⟩ | ⟨ho, q, hq, hv⟩
            · exact Or.inl ⟨q, List.mem_cons_of_mem _ hq, hv⟩
            · exact Or.inr ⟨ho, q, List.mem_cons_of_mem _ hq, hv⟩

theorem scan_mem {vs : Viewables} {bc : Int → Int → Bool} {nr : Nat} :
    ∀ {depth : Nat} {octant x y : Int} {sr : Option (Rat × Rat)} {v : Viewable},
    v ∈ scan vs bc nr depth octant x y sr → ∃ c, v ∈ vs c := by
  intro depth
  induction depth with
  | zero => intro octant x y sr v h; simp [scan] at h
  | succ d ih =>
    intro octant x y sr v h
    rcases scanAux_mem h with ⟨p, _, hv⟩ | ⟨_, p, _, hv⟩
    · exact ⟨(x + p.1, y + p.2), hv⟩
    · exact ih hv

theorem scan_one_south {vs : Viewables} {bc : Int → Int → Bool} {nr : Nat} :
    ∀ {depth : Nat} {x y : Int} {sr : Option (Rat × Rat)} {v : Viewable},
    v ∈ scan vs bc nr depth 1 x y sr → ∃ c, v ∈ vs c ∧ y < c.2 := by
  intro depth
  induction depth with
  | zero => intro x y sr v h; simp [scan] at h
  | succ d ih =>
    intro x y sr v h
    rcases scanAux_mem h with ⟨p, hp, hv⟩ | ⟨_, p, hp, hv⟩
    · have h2 := iterOctant_one_snd_pos nr p hp
      exact ⟨(x + p.1, y + p.2), hv, by simp; omega⟩
    · have h2 := iterOctant_one_snd_pos nr p hp
      rcases ih hv with ⟨c, hc, hlt⟩
      exact ⟨c, hc, by omega⟩

theorem scan_ne_origin {vs : Viewables} {bc : Int → Int → Bool} {nr depth : Nat}
    {octant x y : Int} {sr : Option (Rat × Rat)} {v : Viewable}
    (h : v ∈ scan vs bc nr depth octant x y sr) : ∃ c, v ∈ vs c ∧ c ≠ (x, y) := by
  by_cases ho : octant = 1
  · subst ho
    rcases scan_one_south h with ⟨c, hc, hlt⟩
    refine ⟨c, hc, ?_⟩
    intro he
    rw [he] at hlt
    omega
  · cases depth with
    | zero => simp [scan] at h
    | succ d =>
      rcases scanAux_mem h with ⟨p, hp, hv⟩ | ⟨h1, _⟩
      · have hne := iterOctant_ne_zero octant nr p hp
        refine ⟨(x + p.1, y + p.2), hv, ?_⟩
        intro he
        apply hne
        obtain ⟨i, j⟩ := p
        simp only [Prod.mk.injEq] at he ⊢
        omega
      · exact absurd h1 ho

theorem mem_viewablesFromGame {g : List Ent} {c : Int × Int} {v : Viewable}
    (h : v ∈ viewablesFromGame g c) : ∃ e ∈ g, e.v = v ∧ (e.x, e.y) = c := by
  simp only [viewablesFromGame, List.mem_map, List.mem_filter] at h
  rcases h with ⟨e, ⟨he, hc⟩, hv⟩
  exact ⟨e, he, hv, of_decide_eq_true hc⟩

theorem runAlgorithm_mem {cols lines : Int} {fuel nr : Nat} {g : List Ent}
    {x y : Int} {v : Viewable}
    (h : v ∈ runAlgorithm cols lines fuel nr g x y) :
    ∃ e ∈ g, e.v = v ∧ (e.x, e.y) ≠ (x, y) := by
  have step : ∀ octant : Int,
      v ∈ scan (viewablesFromGame g) (screenBounds cols lines) nr fuel octant x y none →
      ∃ e ∈ g, e.v = v ∧ (e.x, e.y) ≠ (x, y) := by
    intro octant hm
    rcases scan_ne_origin hm with ⟨c, hc, hne⟩
    rcases mem_viewablesFromGame hc with ⟨e, he, hev, hexy⟩
    exact ⟨e, he, hev, by rw [hexy]; exact hne⟩
  simp only [runAlgorithm, List.mem_append] at h
  rcases h with ((((((h | h) | h) | h) | h) | h) | h) | h <;> exact step _ h

theorem pass_ok {cols lines : Int} {fuel nr : Nat} {g : List Ent} {st st' : VisionState}
    (h : runShadowCastingE cols lines fuel nr g st = .ok st') :
    ∃ x y, getPlayerPosition g = some (x, y) ∧
      st'.seen = runAlgorithm cols lines fuel nr g x y ∧
      st'.lum = relight (runAlgorithm cols lines fuel nr g x y) (dimSeen st.seen st.lum) := by
  cases hp : getPlayerPosition g with
  | none => rw [runShadowCastingE, hp] at h; cases h
  | some xy =>
    obtain ⟨x, y⟩ := xy
    rw [runShadowCastingE, hp] at h
    simp only [Except.ok.injEq] at h
    exact ⟨x, y, rfl, by rw [← h], by rw [← h]⟩

theorem pass_iff {cols lines : Int} {fuel nr : Nat} {g : List Ent} {st st' : VisionState}
    (hinv : ∀ n, st.lum n = Luminosity.BRIGHT → n ∈ vids st.seen)
    (h : runShadowCastingE cols lines fuel nr g st = .ok st') (n : Nat) :
    (st'.lum n = Luminosity.BRIGHT ↔ n ∈ vids st'.seen) := by
  rcases pass_ok h with ⟨x, y, hp, hseen, hlum⟩
  rw [hseen, hlum]
  by_cases hm : n ∈ vids (runAlgorithm cols lines fuel nr g x y)
  · simp [hm, relight_mem _ _ _ hm]
  · rw [relight_not_mem _ _ _ hm]
    constructor
    · intro hb
      have h1 := dimSeen_bright_mono _ _ _ hb
      have h2 := hinv n h1
      exact absurd hb (dimSeen_kills_mem _ _ _ h2)
    · intro hmem
      exact absurd hmem hm

theorem runPasses_iff {cols lines : Int} {fuel nr : Nat} :
    ∀ (gs : List (List Ent)) (st st' : VisionState),
    (∀ n, st.lum n = Luminosity.BRIGHT ↔ n ∈ vids st.seen) →
    runPassesE cols lines fuel nr gs st = .ok st' →
    ∀ n, (st'.lum n = Luminosity.BRIGHT ↔ n ∈ vids st'.seen) := by
  intro gs
  induction gs with
  | nil =>
    intro st st' hiff h
    rw [runPassesE] at h
    simp only [Except.ok.injEq] at h
    rw [← h]
    exact hiff
  | cons g gs ih =>
    intro st st' hiff h
    rw [runPassesE] at h
    cases hq : runShadowCastingE cols lines fuel nr g st with
    | error e => rw [hq] at h; cases h
    | ok st1 =>
      rw [hq] at h
      exact ih st1 st' (pass_iff (fun n hb => (hiff n).1 hb) hq) h

theorem runPasses_no_dim {cols lines : Int} {fuel nr : Nat} :
    ∀ (gs : List (List Ent)) (st st' : VisionState) (n : Nat),
    (∀ g ∈ gs, ∀ e ∈ g, e.v.vid = n → e.v.terrain = false) →
    st.lum n ≠ Luminosity.DIM →
    (∀ w ∈ st.seen, w.vid = n → w.terrain = false) →
    runPassesE cols lines fuel nr gs st = .ok st' →
    st'.lum n ≠ Luminosity.DIM := by
  intro gs
  induction gs with
  | nil =>
    intro st st' n _ hd _ h
    rw [runPassesE] at h
    simp only [Except.ok.injEq] at h
    rw [← h]
    exact hd
  | cons g gs ih =>
    intro st st' n hg hd hseen h
    rw [runPassesE] at h
    cases hq : runShadowCastingE cols lines fuel nr g st with
    | error e => rw [hq] at h; cases h
    | ok st1 =>
      rw [hq] at h
      rcases pass_ok hq with ⟨x, y, hp, hseen1, hlum1⟩
      have hS : ∀ w ∈ st1.seen, w.vid = n → w.terrain = false := by
        intro w hw hwn
        rw [hseen1] at hw
        rcases runAlgorithm_mem hw with ⟨e, he, hev, _⟩
        have := hg g (List.mem_cons_self _ _) e he
        rw [hev] at this
        exact this hwn
      have hd1 : st1.lum n ≠ Luminosity.DIM := by
        rw [hlum1]
        rcases relight_cases (runAlgorithm cols lines fuel nr g x y)
            (dimSeen st.seen st.lum) n with hb | hk
        · rw [hb]; simp
        · rw [hk]
          exact dimSeen_no_dim st.seen st.lum n hseen hd
      exact ih st1 st' n (fun g2 hg2 => hg g2 (List.mem_cons_of_mem _ hg2)) hd1 hS h

/-- A small game for instantiating theorems: a player at (5, 5) with
viewable id 0 and a terrain viewable id 7 at (5, 6), both well inside
an 80 x 24 screen. -/
def witGame : List Ent :=
  [⟨5, 5, ⟨0, false, false⟩, true⟩, ⟨5, 6, ⟨7, false, true⟩, false⟩]

/-- The state after one pass over witGame from the initial state. -/
def c1Result : VisionState :=
  match runPassesE 80 24 2 2 [witGame] initState with
  | .ok s => s
  | .error _ => initState

/-- The state after the first pass over witGame. -/
def c5Res1 : VisionState :=
  match runShadowCastingE 80 24 2 2 witGame initState with
  | .ok s => s
  | .error _ => initState

/-- The state after the second pass over witGame. -/
def c5Res2 : VisionState :=
  match runShadowCastingE 80 24 2 2 witGame c5Res1 with
  | .ok s => s
  | .error _ => initState

/-- A previous-pass state holding one bright terrain viewable id 7. -/
def c4St : VisionState :=
  ⟨[⟨7, false, true⟩], fun n => if n = 7 then Luminosity.BRIGHT else Luminosity.HIDDEN⟩

/-- A game containing only the player, so a pass over it sees nothing. -/
def c4Game : List Ent := [⟨5, 5, ⟨0, false, false⟩, true⟩]

/-- The state after a pass over c4Game from c4St. -/
def c4Res : VisionState :=
  match runShadowCastingE 80 24 2 2 c4Game c4St with
  | .ok s => s
  | .error _ => initState

/-- The state after one pass over c4Game from the initial state. -/
def c4Res2 : VisionState :=
  match runPassesE 80 24 2 2 [c4Game] initState with
  | .ok s => s
  | .error _ => initState

/-- The state after one pass over witGame, for the C10 witness. -/
def c10Res : VisionState :=
  match runShadowCastingE 80 24 2 2 witGame initState with
  | .ok s => s
  | .error _ => initState

/-- C1: starting from the state in which every viewable is HIDDEN and
luminosity is mutated only by the visibility passes, after every
completed sequence of passes a viewable's luminosity is BRIGHT exactly
when it belongs to the seen set produced by the most recent pass. -/
theorem claim_C1 (cols lines : Int) (fuel nr : Nat) (gs : List (List Ent))
    (st' : VisionState) (n : Nat)
    (h : runPassesE cols lines fuel nr gs initState = .ok st') :
    (st'.lum n = Luminosity.BRIGHT ↔ n ∈ vids st'.seen) :=
  runPasses_iff gs initState st'
    (by intro m; simp [initState, vids]) h n

/-- Witness for C1 at a concrete single-pass sequence over witGame. -/
theorem claim_C1_witness :
    (c1Result.lum 7 = Luminosity.BRIGHT ↔ 7 ∈ vids c1Result.seen) :=
  claim_C1 80 24 2 2 [witGame] c1Result 7 (by rfl)

/-- C4: a viewable of the previous seen set that is BRIGHT at the start
of a pass and absent from the new seen set ends the pass DIM when it is
terrain and HIDDEN otherwise; consequently, from the all-hidden initial
state, a viewable that is non-terrain in every pass is never DIM. -/
theorem claim_C4 :
    (∀ (cols lines : Int) (fuel nr : Nat) (g : List Ent) (st st' : VisionState)
      (v : Viewable),
      (∀ a ∈ st.seen, ∀ b ∈ st.seen, a.vid = b.vid → a = b) →
      v ∈ st.seen → st.lum v.vid = Luminosity.BRIGHT →
      runShadowCastingE cols lines fuel nr g st = .ok st' →
      v.vid ∉ vids st'.seen →
      st'.lum v.vid = (if v.terrain then Luminosity.DIM else Luminosity.HIDDEN)) ∧
    (∀ (cols lines : Int) (fuel nr : Nat) (gs : List (List Ent))
      (st' : VisionState) (n : Nat),
      (∀ g ∈ gs, ∀ e ∈ g, e.v.vid = n → e.v.terrain = false) →
      runPassesE cols lines fuel nr gs initState = .ok st' →
      st'.lum n ≠ Luminosity.DIM) := by
  constructor
  · intro cols lines fuel nr g st st' v huniq hv hb h hn
    rcases pass_ok h with ⟨x, y, hp, hseen, hlum⟩
    rw [hseen] at hn
    rw [hlum, relight_not_mem _ _ _ hn]
    exact dimSeen_target st.seen st.lum v huniq hv hb
  · intro cols lines fuel nr gs st' n hg h
    refine runPasses_no_dim gs initState st' n hg ?_ ?_ h
    · simp [initState]
    · intro w hw
      simp [initState] at hw
/-- Witness for C4: both conjuncts applied at concrete inputs — the
bright terrain viewable 7 dropping out of view becomes DIM, and the
non-terrain id 9 is never DIM. -/
theorem claim_C4_witness :
    c4Res.lum 7 = (if (⟨7, false, true⟩ : Viewable).terrain
      then Luminosity.DIM else Luminosity.HIDDEN) ∧
    c4Res2.lum 9 ≠ Luminosity.DIM := by
  constructor
  · exact claim_C4.1 80 24 2 2 c4Game c4St c4Res ⟨7, false, true⟩
      (by decide) (by decide) (by decide) (by rfl) (by decide)
  · exact claim_C4.2 80 24 2 2 [c4Game] c4Res2 9 (by decide) (by rfl)

/-- C5: with no change to the entities, a second visibility pass
produces the same seen set and the same luminosity at every vid as the
first pass. -/
theorem claim_C5 (cols lines : Int) (fuel nr : Nat) (g : List Ent)
    (st st1 st2 : VisionState) (n : Nat)
    (h1 : runShadowCastingE cols lines fuel nr g st = .ok st1)
    (h2 : runShadowCastingE cols lines fuel nr g st1 = .ok st2) :
    st2.seen = st1.seen ∧ st2.lum n = st1.lum n := by
  rcases pass_ok h1 with ⟨x, y, hp1, hseen1, hlum1⟩
  rcases pass_ok h2 with ⟨x2, y2, hp2, hseen2, hlum2⟩
  rw [hp1] at hp2
  simp only [Option.some.injEq, Prod.mk.injEq] at hp2
  obtain ⟨hx, hy⟩ := hp2
  subst hx
  subst hy
  refine ⟨by rw [hseen2, hseen1], ?_⟩
  rw [hlum2, hseen1]
  by_cases hm : n ∈ vids (runAlgorithm cols lines fuel nr g x y)
  · rw [relight_mem _ _ _ hm, hlum1, relight_mem _ _ _ hm]
  · rw [relight_not_mem _ _ _ hm, dimSeen_not_mem _ _ _ hm]

/-- Witness for C5 at two consecutive passes over witGame. -/
theorem claim_C5_witness :
    c5Res2.seen = c5Res1.seen ∧ c5Res2.lum 7 = c5Res1.lum 7 :=
  claim_C5 80 24 2 2 witGame initState c5Res1 c5Res2 7 (by rfl) (by rfl)

/-- C10: the ray generator never yields the offset (0, 0), and in any
completed pass whose viewer entity has a hidden viewable, that viewable
neither enters the seen set nor is set to BRIGHT. -/
theorem claim_C10 :
    (∀ (idx : Int) (n : Nat), ((0, 0) : Int × Int) ∉ iterOctant idx n) ∧
    (∀ (cols lines : Int) (fuel nr : Nat) (g : List Ent) (st st' : VisionState)
      (e : Ent),
      e ∈ g → getPlayerPosition g = some (e.x, e.y) →
      (∀ a ∈ g, ∀ b ∈ g, a.v.vid = b.v.vid → a = b) →
      st.lum e.v.vid = Luminosity.HIDDEN →
      runShadowCastingE cols lines fuel nr g st = .ok st' →
      e.v ∉ st'.seen ∧ st'.lum e.v.vid ≠ Luminosity.BRIGHT) := by
  constructor
  · intro idx n hp
    exact iterOctant_ne_zero idx n _ hp rfl
  · intro cols lines fuel nr g st st' e he hp hinj hhid h
    rcases pass_ok h with ⟨x, y, hp2, hseen, hlum⟩
    rw [hp] at hp2
    simp only [Option.some.injEq, Prod.mk.injEq] at hp2
    obtain ⟨hx, hy⟩ := hp2
    have hvidnot : e.v.vid ∉ vids st'.seen := by
      intro hmem
      rw [hseen] at hmem
      simp only [vids, List.mem_map] at hmem
      rcases hmem with ⟨w, hw, hwv⟩
      rcases runAlgorithm_mem hw with ⟨f, hf, hfv, hfne⟩
      have hfe : f = e := hinj f hf e he (by rw [hfv, hwv])
      apply hfne
      rw [hfe, ← hx, ← hy]
    constructor
    · intro hmem
      apply hvidnot
      rw [hseen] at hmem ⊢
      exact List.mem_map.2 ⟨e.v, hmem, rfl⟩
    · have hvidnot2 : e.v.vid ∉ vids (runAlgorithm cols lines fuel nr g x y) := by
        rw [← hseen]
        exact hvidnot
      rw [hlum, relight_not_mem _ _ _ hvidnot2,
        dimSeen_stable _ _ _ (by rw [hhid]; simp)]
      rw [hhid]
      simp

/-- Witness for C10: offset (0, 0) is absent from the first rings of
octant 1, and the player of witGame stays unseen and non-bright. -/
theorem claim_C10_witness :
    (((0, 0) : Int × Int) ∉ iterOctant 1 3) ∧
    ((⟨5, 5, ⟨0, false, false⟩, true⟩ : Ent).v ∉ c10Res.seen ∧
      c10Res.lum 0 ≠ Luminosity.BRIGHT) := by
  constructor
  · exact claim_C10.1 1 3
  · exact claim_C10.2 80 24 2 2 witGame initState c10Res
      ⟨5, 5, ⟨0, false, false⟩, true⟩ (by decide) (by rfl) (by decide)
      (by rfl) (by rfl)

/-- C2: scan at the exact inputs of test_scan returns the wall viewable
followed by the viewable at (-2, 3) gathered by the recursive sub-scan,
and therefore differs from the list stored at the wall cell (-1, 1)
that the test asserts as the full result; the extra element makes the
repository's own test_scan assertion fail. -/
theorem claim_C2_bug :
    scan testScanMap testScanBounds 6 6 1 0 0 none
      = [⟨5, true, false⟩, ⟨1, false, false⟩] ∧
    scan testScanMap testScanBounds 12 12 1 0 0 none
      = [⟨5, true, false⟩, ⟨1, false, false⟩] ∧
    scan testScanMap testScanBounds 6 6 1 0 0 none ≠ testScanMap (-1, 1) := by
  refine ⟨by decide, by decide, by decide⟩

/-- C3 counterexample: in the run of test_scan the single recursive
call passes origin arguments (-2, 1), not the top-level origin (0, 0)
as the claim states. -/
theorem claim_C3_counterexample :
    scanCallsAux testScanMap testScanBounds 1 0 0 (iterOctant 1 6) none false
      = [(1, -2, 1, ((0 : Rat), half))] ∧
    ((-2 : Int), (1 : Int)) ≠ ((0 : Int), (0 : Int)) := by
  refine ⟨by decide, by decide⟩

/-- C3 amended: every recursive call the scanner issues happens with
octant 1 (no other octant ever recurses), keeps that octant, passes
slope range (0, 0.5), and receives as its origin and start a processed
wall point shifted one step further out on the swept axis; the sparse
index and the bounds check are passed through unchanged. -/
theorem claim_C3 :
    ∀ (vs : Viewables) (bc : Int → Int → Bool) (octant x y : Int)
      (offs : List (Int × Int)) (sr : Option (Rat × Rat)) (ws : Bool)
      (c : Int × Int × Int × (Rat × Rat)),
      c ∈ scanCallsAux vs bc octant x y offs sr ws →
      octant = 1 ∧ ∃ p ∈ offs, wallAt vs (x + p.1, y + p.2) = true ∧
        c = (1, x + p.1 - 1, y + p.2, ((0 : Rat), half)) := by
  intro vs bc octant x y offs
  induction offs with
  | nil => intro sr ws c h; simp [scanCallsAux] at h
  | cons p rest ih =>
    obtain ⟨i, j⟩ := p
    intro sr ws c h
    simp only [scanCallsAux] at h
    by_cases hbc : bc (x + i) (y + j) = true
    · simp [hbc] at h
    · rw [if_neg (by simp [hbc])] at h
      by_cases hsk : skipPoint octant (x, y) (x + i, y + j) sr = true
      · rw [if_pos (by simp [hsk])] at h
        rcases ih sr ws c h with ⟨ho, q, hq, hc⟩
        exact ⟨ho, q, List.mem_cons_of_mem _ hq, hc⟩
      · rw [if_neg (by simp [hsk])] at h
        simp only [List.mem_append] at h
        rcases h with h | h
        · by_cases hw : ((vs (x + i, y + j)).any (fun w => w.solid) && decide (octant = 1)) = true
          · rw [if_pos hw] at h
            simp only [List.mem_singleton] at h
            have ho : octant = 1 := of_decide_eq_true (Bool.and_elim_right hw)
            refine ⟨ho, (i, j), List.mem_cons_self _ _, Bool.and_elim_left hw, ?_⟩
            rw [h, ho]
          · rw [if_neg hw] at h
            simp at h
        · by_cases hbr : breakAfter octant i j
              (ws || (vs (x + i, y + j)).any (fun w => w.solid)) = true
          · rw [if_pos (by simp [hbr])] at h
            simp at h
          · rw [if_neg (by simp [hbr])] at h
            rcases ih _ _ c h with ⟨ho, q, hq, hc⟩
            exact ⟨ho, q, List.mem_cons_of_mem _ hq, hc⟩

/-- Witness for C3 at the recorded call of the test_scan run. -/
theorem claim_C3_witness :
    (1 : Int) = 1 ∧ ∃ p ∈ iterOctant 1 6,
      wallAt testScanMap (0 + p.1, 0 + p.2) = true ∧
      ((1 : Int), (-2 : Int), (1 : Int), ((0 : Rat), half))
        = (1, 0 + p.1 - 1, 0 + p.2, ((0 : Rat), half)) :=
  claim_C3 testScanMap testScanBounds 1 0 0 (iterOctant 1 6) none false
    (1, -2, 1, ((0 : Rat), half)) (by decide)

/-- C6 counterexample: octant 2 ring 1 yields (1, 1) before (0, 1) —
the swept coordinate runs from +k down to 0, not from 0 up to +k as the
claim's direction for octant 2 states. -/
theorem claim_C6_counterexample :
    octantRing 2 1 = [(1, 1), (0, 1)] ∧
    octantRing 2 1 ≠ [(0, 1), (1, 1)] := by
  refine ⟨by decide, by decide⟩

/-- C6 amended: for every k ≥ 1 and octant 1..8 the generator emits the
ring's k + 1 offsets as one block before advancing to ring k + 1, with
the fixed axis as the table states and the swept coordinate always
running from the ring's outer edge down to 0: octant 1 has y = k with x
from -k to 0; octant 2 has y = k with x from +k to 0; octant 3 has
x = k with y from +k to 0; octant 4 has x = k with y from -k to 0;
octant 5 has y = -k with x from +k to 0; octant 6 has y = -k with x
from -k to 0; octant 7 has x = -k with y from -k to 0; octant 8 has
x = -k with y from +k to 0; in particular octant 1 ring 1 yields
(-1, 1) then (0, 1) and octant 3 ring 1 yields (1, 1) then (1, 0). -/
theorem claim_C6 :
    (∀ k : Nat, 1 ≤ k →
      (∀ idx : Int, 1 ≤ idx → idx ≤ 8 → (octantRing idx k).length = k + 1) ∧
      (∀ idx : Int, iterOctant idx k = iterOctant idx (k - 1) ++ octantRing idx k) ∧
      octantRing 1 k = (List.range (k + 1)).map (fun (t : Nat) => ((t : Int) - k, (k : Int))) ∧
      octantRing 2 k = (List.range (k + 1)).map (fun (t : Nat) => ((k : Int) - t, (k : Int))) ∧
      octantRing 3 k = (List.range (k + 1)).map (fun (t : Nat) => ((k : Int), (k : Int) - t)) ∧
      octantRing 4 k = (List.range (k + 1)).map (fun (t : Nat) => ((k : Int), (t : Int) - k)) ∧
      octantRing 5 k = (List.range (k + 1)).map (fun (t : Nat) => ((k : Int) - t, -(k : Int))) ∧
      octantRing 6 k = (List.range (k + 1)).map (fun (t : Nat) => ((t : Int) - k, -(k : Int))) ∧
      octantRing 7 k = (List.range (k + 1)).map (fun (t : Nat) => (-(k : Int), (t : Int) - k)) ∧
      octantRing 8 k = (List.range (k + 1)).map (fun (t : Nat) => (-(k : Int), (k : Int) - t))) ∧
    octantRing 1 1 = [(-1, 1), (0, 1)] ∧
    octantRing 3 1 = [(1, 1), (1, 0)] := by
  refine ⟨?_, by decide, by decide⟩
  intro k hk
  refine ⟨fun idx => octantRing_length idx k, ?_, octantRing_closed k⟩
  intro idx
  cases k with
  | zero => omega
  | succ m => simpa using iterOctant_block idx m

/-- Witness for C6 at ring 2 of octant 2. -/
theorem claim_C6_witness :
    (octantRing 2 2).length = 2 + 1 ∧
    octantRing 2 2 = (List.range (2 + 1)).map (fun (t : Nat) => ((2 : Int) - t, (2 : Int))) := by
  constructor
  · exact (claim_C6.1 2 (by decide)).1 2 (by decide) (by decide)
  · exact (claim_C6.1 2 (by decide)).2.2.2.1

/-- C7 counterexample: the empty game contains no viewer entity, and the
pass over it errors (the source raises a TypeError when the first
generator offset is added to the None sentinel) instead of completing. -/
theorem claim_C7_counterexample :
    getPlayerPosition ([] : List Ent) = none ∧
    runShadowCastingE 80 24 3 3 ([] : List Ent) initState = .error () := by
  exact ⟨rfl, rfl⟩

/-- C7 amended: whenever the game holds no entity with Player, Position
and Viewable, the visibility pass raises instead of degrading to a
no-op: the origin stays at the (None, None) sentinel and the first
offset addition inside scan raises a TypeError, modelled by the error
result. -/
theorem claim_C7 (cols lines : Int) (fuel nr : Nat) (g : List Ent) (st : VisionState)
    (h : getPlayerPosition g = none) :
    runShadowCastingE cols lines fuel nr g st = .error () := by
  rw [runShadowCastingE, h]

/-- Witness for C7 at the empty game. -/
theorem claim_C7_witness :
    runShadowCastingE 80 24 2 2 ([] : List Ent) initState = .error () :=
  claim_C7 80 24 2 2 [] initState (by rfl)

/-- C8 counterexample: engine.py's slope divides without the x1 = x2
guard, so at a = (0, 0), b = (0, 1) it raises ZeroDivisionError
(modelled as the error result) rather than returning infinity. -/
theorem claim_C8_counterexample :
    engineSlope (0, 0) (0, 1) = .error () := by rfl

/-- C8 amended: vision.py's slope and inverse_slope return positive
infinity on their degenerate cases (x1 = x2, respectively y1 = y2) and
the exact quotient otherwise, never raising; engine.py's older slope
lacks the guard and raises exactly when x1 = x2. -/
theorem claim_C8 (a b : Int × Int) :
    slope a b = (if a.1 = b.1 then Flt.inf
      else Flt.val (Rat.divInt (b.2 - a.2) (b.1 - a.1))) ∧
    inverse_slope a b = (if a.2 = b.2 then Flt.inf
      else Flt.val (Rat.divInt (b.1 - a.1) (b.2 - a.2))) ∧
    engineSlope a b = (if a.1 = b.1 then Except.error ()
      else Except.ok (Rat.divInt (b.2 - a.2) (b.1 - a.1))) := by
  refine ⟨rfl, rfl, ?_⟩
  unfold engineSlope
  by_cases h : a.1 = b.1
  · rw [if_pos (by omega), if_pos h]
  · rw [if_neg (by omega), if_neg h]

/-- C9: in an octant-1 scan call, a processed wall point under the
caller's absent slope range switches the local slope range to (0, 0.5)
for the remainder of the call and triggers the sub-scan at the shifted
start; under the range (0, 0.5) an in-bounds point whose inverse slope
from the origin lies outside [0, 0.5] is skipped outright, and a
processed in-range point keeps the range (0, 0.5), so every point after
the first wall is filtered by [0, 0.5]. -/
theorem claim_C9 :
    (∀ (vs : Viewables) (bc : Int → Int → Bool) (x y : Int)
      (sub : Int → Int → List Viewable) (i j : Int) (rest : List (Int × Int)) (ws : Bool),
      bc (x + i) (y + j) = false →
      wallAt vs (x + i, y + j) = true →
      scanAux vs bc 1 x y sub ((i, j) :: rest) none ws =
        vs (x + i, y + j) ++ sub (x + i - 1) (y + j) ++
          (if i = 0 then []
           else scanAux vs bc 1 x y sub rest (some ((0 : Rat), half)) true)) ∧
    (∀ (vs : Viewables) (bc : Int → Int → Bool) (x y : Int)
      (sub : Int → Int → List Viewable) (i j : Int) (rest : List (Int × Int)) (ws : Bool),
      bc (x + i) (y + j) = false →
      ((inverse_slope (x, y) (x + i, y + j)).ltq 0 ||
        (inverse_slope (x, y) (x + i, y + j)).gtq half) = true →
      scanAux vs bc 1 x y sub ((i, j) :: rest) (some ((0 : Rat), half)) ws =
        scanAux vs bc 1 x y sub rest (some ((0 : Rat), half)) ws) ∧
    (∀ (vs : Viewables) (bc : Int → Int → Bool) (x y : Int)
      (sub : Int → Int → List Viewable) (i j : Int) (rest : List (Int × Int)) (ws : Bool),
      bc (x + i) (y + j) = false →
      ((inverse_slope (x, y) (x + i, y + j)).ltq 0 ||
        (inverse_slope (x, y) (x + i, y + j)).gtq half) = false →
      scanAux vs bc 1 x y sub ((i, j) :: rest) (some ((0 : Rat), half)) ws =
        vs (x + i, y + j) ++
          (if wallAt vs (x + i, y + j) then sub (x + i - 1) (y + j) else []) ++
          (if i = 0 ∧ (ws || wallAt vs (x + i, y + j)) = true then []
           else scanAux vs bc 1 x y sub rest (some ((0 : Rat), half))
             (ws || wallAt vs (x + i, y + j)))) := by
  refine ⟨?_, ?_, ?_⟩
  · intro vs bc x y sub i j rest ws hbc hwall
    have hw : (vs (x + i, y + j)).any (fun v => v.solid) = true := hwall
    simp only [scanAux, skipPoint, hbc, hw, breakAfter]
    simp
  · intro vs bc x y sub i j rest ws hbc hsk
    have hone : skipPoint 1 (x, y) (x + i, y + j) (some ((0 : Rat), half))
        = ((inverse_slope (x, y) (x + i, y + j)).ltq 0 ||
            (inverse_slope (x, y) (x + i, y + j)).gtq half) := rfl
    simp only [scanAux, hone, hbc, hsk]
    simp
  · intro vs bc x y sub i j rest ws hbc hsk
    have hone : skipPoint 1 (x, y) (x + i, y + j) (some ((0 : Rat), half))
        = ((inverse_slope (x, y) (x + i, y + j)).ltq 0 ||
            (inverse_slope (x, y) (x + i, y + j)).gtq half) := rfl
    have hwc : wallAt vs (x + i, y + j) = (vs (x + i, y + j)).any (fun v => v.solid) := rfl
    simp only [scanAux, hone, hbc, hsk, breakAfter, hwc]
    simp

/-- Witness for C9: the three equations at concrete points of the
test_scan map — the wall at offset (-1, 1), the out-of-range offset
(-1, 2), and the in-range offset (0, 1). -/
theorem claim_C9_witness :
    (scanAux testScanMap testScanBounds 1 0 0 (fun _ _ => []) [(-1, 1), (0, 1)] none false =
      testScanMap (0 + -1, 0 + 1) ++ (fun (_ _ : Int) => ([] : List Viewable)) (0 + -1 - 1) (0 + 1) ++
        (if (-1 : Int) = 0 then []
         else scanAux testScanMap testScanBounds 1 0 0 (fun _ _ => []) [(0, 1)]
           (some ((0 : Rat), half)) true)) ∧
    (scanAux testScanMap testScanBounds 1 0 0 (fun _ _ => []) [(-1, 2)]
        (some ((0 : Rat), half)) false =
      scanAux testScanMap testScanBounds 1 0 0 (fun _ _ => []) []
        (some ((0 : Rat), half)) false) ∧
    (scanAux testScanMap testScanBounds 1 0 0 (fun _ _ => []) [(0, 1)]
        (some ((0 : Rat), half)) true =
      testScanMap (0 + 0, 0 + 1) ++
        (if wallAt testScanMap (0 + 0, 0 + 1) then (fun (_ _ : Int) => ([] : List Viewable)) (0 + 0 - 1) (0 + 1) else []) ++
        (if (0 : Int) = 0 ∧ (true || wallAt testScanMap (0 + 0, 0 + 1)) = true then []
         else scanAux testScanMap testScanBounds 1 0 0 (fun _ _ => []) []
           (some ((0 : Rat), half)) (true || wallAt testScanMap (0 + 0, 0 + 1)))) := by
  refine ⟨?_, ?_, ?_⟩
  · exact claim_C9.1 testScanMap testScanBounds 0 0 (fun _ _ => []) (-1) 1 [(0, 1)] false
      (by decide) (by decide)
  · exact claim_C9.2.1 testScanMap testScanBounds 0 0 (fun _ _ => []) (-1) 2 [] false
      (by decide) (by decide)
  · exact claim_C9.2.2 testScanMap testScanBounds 0 0 (fun _ _ => []) 0 1 [] true
      (by decide) (by decide)

end DungeonCrawler
